import Mathlib

/-! # EXTI helper driver header (`os/hal/ports/STM32/LLD/EXTIv1/stm32_exti.h`)

A shallow embedding of the header: the mode constants, the line-to-mask
macros, the pre-compile time checks and the pending-flag clearing macros,
followed by the properties established about them.

Conventions.  A `uint32_t` is a natural number below `2 ^ 32`; a conversion to
`uint32_t` is `% 2 ^ 32`.  A C expression whose value the language leaves
undefined (a shift by 32 or more) evaluates to `none`.
-/

namespace EXTI

/-! ## Driver constants -/

/-- Mode parameter mask. -/
def EXTI_MODE_MASK : Nat := 7
/-- Edges field mask. -/
def EXTI_MODE_EDGES_MASK : Nat := 3
/-- Channel disabled. -/
def EXTI_MODE_DISABLED : Nat := 0
/-- Rising edge callback. -/
def EXTI_MODE_RISING_EDGE : Nat := 1
/-- Falling edge callback. -/
def EXTI_MODE_FALLING_EDGE : Nat := 2
/-- Both edges callback. -/
def EXTI_MODE_BOTH_EDGES : Nat := 3
/-- Action field mask. -/
def EXTI_MODE_ACTION_MASK : Nat := 4
/-- Interrupt mode. -/
def EXTI_MODE_ACTION_INTERRUPT : Nat := 0
/-- Event mode. -/
def EXTI_MODE_ACTION_EVENT : Nat := 4

/-- Classic EXTI. -/
def EXTI_TYPE_CLASSIC : Int := 0
/-- EXTI introduced in G0. -/
def EXTI_TYPE_NEWG0 : Int := 1

/-! ## Machine arithmetic -/

/-- The number of values of a `uint32_t`. -/
def U32 : Nat := 2 ^ 32

/-- Conversion to `uint32_t`. -/
def toU32 (x : Nat) : Nat := x % U32

/-- Unsigned 32-bit subtraction `a - b`, wrapping modulo `2 ^ 32`. -/
def subU32 (a b : Nat) : Nat := (a % U32 + (U32 - b % U32)) % U32

/-- The C expression `a << n` on `unsigned int`: undefined when the shift
amount reaches the width of the type, otherwise the product reduced modulo
`2 ^ 32`. -/
def shlU32 (a n : Nat) : Option Nat :=
  if n < 32 then some ((a <<< n) % U32) else none

/-- The 32-bit complement `~x`. -/
def notU32 (x : Nat) : Nat := (U32 - 1) ^^^ (x % U32)

/-! ## Driver macros: line number to mask -/

/-- From group 1 line number to mask: `(uint32_t)(1U << (line))`. -/
def EXTI_MASK1 (line : Nat) : Option Nat :=
  (shlU32 1 line).map toU32

/-- From group 2 line number to mask: `(uint32_t)(1U << ((line) - 32U))`. -/
def EXTI_MASK2 (line : Nat) : Option Nat :=
  (shlU32 1 (subU32 line 32)).map toU32

/-! ## The register block and the debug assertion -/

/-- Modelled from the spec: the registers of the EXTI register block, which
the vendor register map declares: per group the interrupt mask, the event
mask, the rising and falling trigger selection, the single pending register
of the classic EXTI and the rising and falling pending registers of the EXTI
introduced in G0. -/
inductive Reg where
  | IMR1 | EMR1 | RTSR1 | FTSR1 | PR1 | RPR1 | FPR1
  | IMR2 | EMR2 | RTSR2 | FTSR2 | PR2 | RPR2 | FPR2
  deriving DecidableEq, Repr

/-- Modelled from the spec: which registers hold pending flags. -/
def Reg.isPending : Reg → Bool
  | .PR1 | .RPR1 | .FPR1 | .PR2 | .RPR2 | .FPR2 => true
  | _ => false

/-- The register block together with the record of the stores made to it,
oldest first. -/
structure Machine where
  regs : Reg → Nat
  log : List (Reg × Nat)

/-- Every register holds a 32-bit value. -/
def Machine.WF (m : Machine) : Prop := ∀ r, m.regs r < U32

/-- Modelled from the spec: the content of a register after the value `v` is
stored to it.  Pending registers are write-1-to-clear: the bits set in `v`
are cleared and the others keep their value.  Any other register takes the
value stored. -/
def hwWrite (r : Reg) (old v : Nat) : Nat :=
  if r.isPending then old &&& notU32 v else v % U32

/-- Result of running a statement sequence: it ran to its end, or the system
was halted by a failed assertion; both carry the machine reached. -/
inductive Outcome where
  | done (m : Machine)
  | halted (msg : String) (m : Machine)

/-- The machine an outcome carries. -/
def Outcome.machine : Outcome → Machine
  | .done m => m
  | .halted _ m => m

/-- Whether the outcome is a halt. -/
def Outcome.isHalted : Outcome → Bool
  | .done _ => false
  | .halted _ _ => true

/-- Sequencing of statements: what follows a halt is not executed. -/
def Outcome.andThen (o : Outcome) (f : Machine → Outcome) : Outcome :=
  match o with
  | .done m => f m
  | .halted msg m => .halted msg m

/-- The assignment `EXTI->r = v`. -/
def writeReg (r : Reg) (v : Nat) (m : Machine) : Outcome :=
  .done
    { regs := fun q => if q = r then hwWrite r (m.regs r) v else m.regs q
      log := m.log ++ [(r, v)] }

/-- Modelled from the spec: the OSAL debug assertion `osalDbgAssert(c, msg)`
of a build with assertions enabled; a false condition is fatal and halts the
system where it stands. -/
def osalDbgAssert (c : Bool) (msg : String) (m : Machine) : Outcome :=
  if c then .done m else .halted msg m

/-! ## Driver macros: pending flags clearing -/

/-- STM32 EXTI group 1 IRQ status clearing, for the EXTI type `ty`
(`STM32_EXTI_TYPE`) and the fixed lines mask `imr1`
(`STM32_EXTI_IMR1_MASK`). -/
def extiClearGroup1 (ty : Int) (imr1 : Nat) (mask : Nat) (m : Machine) : Outcome :=
  if ty = EXTI_TYPE_CLASSIC then
    (osalDbgAssert ((mask &&& imr1) == 0) "fixed lines" m).andThen fun m =>
    writeReg .PR1 (toU32 mask) m
  else
    (osalDbgAssert ((mask &&& imr1) == 0) "fixed lines" m).andThen fun m =>
    (writeReg .RPR1 (toU32 mask) m).andThen fun m =>
    writeReg .FPR1 (toU32 mask) m

/-- STM32 EXTI group 2 IRQ status clearing, for the EXTI type `ty`
(`STM32_EXTI_TYPE`) and the fixed lines mask `imr2`
(`STM32_EXTI_IMR2_MASK`). -/
def extiClearGroup2 (ty : Int) (imr2 : Nat) (mask : Nat) (m : Machine) : Outcome :=
  if ty = EXTI_TYPE_CLASSIC then
    (osalDbgAssert ((mask &&& imr2) == 0) "fixed lines" m).andThen fun m =>
    writeReg .PR2 (toU32 mask) m
  else
    (osalDbgAssert ((mask &&& imr2) == 0) "fixed lines" m).andThen fun m =>
    (writeReg .RPR2 (toU32 mask) m).andThen fun m =>
    writeReg .FPR2 (toU32 mask) m

/-- The (group index, mask) pair of a line per the ranges the two mask macros
document: `EXTI_MASK1` for the lines 0..31 of group 1 (index 0), `EXTI_MASK2`
for the lines 32..63 of group 2 (index 1). -/
def lineAddress (line : Nat) : Option (Nat × Nat) :=
  if line < 32 then (EXTI_MASK1 line).map fun m => (0, m)
  else (EXTI_MASK2 line).map fun m => (1, m)

/-! ## Derived constants and error checks -/

/-- The value of `TRUE`. -/
def TRUE : Int := 1
/-- The value of `FALSE`. -/
def FALSE : Int := 0

/-- The registry settings the header consumes; `none` is a name that is not
defined. -/
structure Config where
  /-- Registry setting `STM32_EXTI_NUM_LINES`. -/
  numLines : Option Int
  /-- Registry setting `STM32_EXTI_HAS_GROUP2`. -/
  hasGroup2 : Option Int
  /-- Registry setting `STM32_EXTI_TYPE`. -/
  extiType : Option Int
  /-- Registry setting `STM32_EXTI_IMR1_MASK`. -/
  imr1Mask : Option Nat
  /-- Registry setting `STM32_EXTI_IMR2_MASK`. -/
  imr2Mask : Option Nat
  deriving DecidableEq, Repr

/-- The value of a name inside an `#if` expression: a name that is not defined
evaluates to 0. -/
def ppValue (x : Option Int) : Int := x.getD 0

/-- `STM32_EXTI_HAS_GROUP2` after the header: the registry value when present,
otherwise inferred from the number of lines. -/
def STM32_EXTI_HAS_GROUP2 (cfg : Config) : Int :=
  match cfg.hasGroup2 with
  | some v => v
  | none => if ppValue cfg.numLines ≤ 32 then FALSE else TRUE

/-- `STM32_EXTI_TYPE` after the header: a classic EXTI if not defined. -/
def STM32_EXTI_TYPE (cfg : Config) : Int :=
  match cfg.extiType with
  | some v => v
  | none => EXTI_TYPE_CLASSIC

/-- The `#error` directives the header reaches, in source order. -/
def headerErrors (cfg : Config) : List String :=
  (if cfg.numLines.isNone then
    ["STM32_EXTI_NUM_LINES not defined in registry"] else [])
  ++ (if STM32_EXTI_TYPE cfg ≠ EXTI_TYPE_CLASSIC ∧
        STM32_EXTI_TYPE cfg ≠ EXTI_TYPE_NEWG0 then
    ["invalid STM32_EXTI_TYPE"] else [])
  ++ (if ppValue cfg.numLines < 0 ∨ ppValue cfg.numLines > 63 then
    ["invalid STM32_EXTI_NUM_LINES value"] else [])
  ++ (if cfg.imr1Mask.isNone then
    ["STM32_EXTI_IMR1_MASK not defined in registry"] else [])
  ++ (if ppValue cfg.numLines > 32 then
        (if cfg.imr2Mask.isNone then
          ["STM32_EXTI_IMR2_MASK not defined in registry"] else [])
      else [])

/-- The header is accepted when no `#error` directive is reached. -/
def headerAccepts (cfg : Config) : Bool := (headerErrors cfg).isEmpty

/-- Whether the group 2 operations (`extiClearGroup2`, `extiEnableGroup2`)
are present: the guard `STM32_EXTI_HAS_GROUP2 == TRUE`. -/
def hasGroup2Ops (cfg : Config) : Bool := STM32_EXTI_HAS_GROUP2 cfg == TRUE

/-! ## Mode codec -/

/-- Modelled from the spec: the validity check of a mode,
`(mode & ~EXTI_MODE_MASK) == 0U`; the functions making it are not part of the
header. -/
def modeValid (mode : Nat) : Bool := mode &&& notU32 EXTI_MODE_MASK == 0

/-- Modelled from the spec: the decomposition of a mode into its edge and
action fields, `(mode & EXTI_MODE_EDGES_MASK, mode & EXTI_MODE_ACTION_MASK)`;
the functions decoding a mode are not part of the header. -/
def decodeMode (mode : Nat) : Nat × Nat :=
  (mode &&& EXTI_MODE_EDGES_MASK, mode &&& EXTI_MODE_ACTION_MASK)

/-- Modelled from the spec: a mode from its edge and action fields,
`edge | action`, the way callers build the mode argument. -/
def encodeMode (edge action : Nat) : Nat := edge ||| action

/-- The four edge constants. -/
def edgeConstants : List Nat :=
  [EXTI_MODE_DISABLED, EXTI_MODE_RISING_EDGE, EXTI_MODE_FALLING_EDGE,
   EXTI_MODE_BOTH_EDGES]

/-- The two action constants. -/
def actionConstants : List Nat :=
  [EXTI_MODE_ACTION_INTERRUPT, EXTI_MODE_ACTION_EVENT]

/-- Every edge constant combined with every action constant by bitwise OR. -/
def modeCombinations : List Nat :=
  edgeConstants.flatMap fun e => actionConstants.map fun a => e ||| a

/-! ## Configurations as the specification describes them -/

/-- The valid configurations in the words of the specification: the line count
is defined and lies in 0..63, the variant tag is absent (classic), classic or
split-pending, the fixed lines mask of group 1 is defined, and that of group 2
is defined whenever the line count exceeds 32. -/
def specValidConfig (cfg : Config) : Prop :=
  (∃ n, cfg.numLines = some n ∧ 0 ≤ n ∧ n ≤ 63) ∧
  (cfg.extiType = none ∨ cfg.extiType = some EXTI_TYPE_CLASSIC ∨
    cfg.extiType = some EXTI_TYPE_NEWG0) ∧
  cfg.imr1Mask ≠ none ∧
  (∀ n, cfg.numLines = some n → 32 < n → cfg.imr2Mask ≠ none)

/-! ## Logical pending state of the split-pending variant -/

/-- The lines of group 1 that are logically pending in the split-pending
variant: pending in the rising or in the falling pending register. -/
def logicalPending1 (m : Machine) : Nat := m.regs .RPR1 ||| m.regs .FPR1

/-- The lines of group 2 that are logically pending in the split-pending
variant: pending in the rising or in the falling pending register. -/
def logicalPending2 (m : Machine) : Nat := m.regs .RPR2 ||| m.regs .FPR2

/-- The classic register block that stands for a split-pending one: the single
pending register of each group holds the logically pending lines, every other
register is taken over. -/
def classicImage (m : Machine) : Machine :=
  { regs := fun r =>
      if r = .PR1 then logicalPending1 m
      else if r = .PR2 then logicalPending2 m
      else m.regs r
    log := m.log }

/-! ## Configurations used as examples -/

/-- A registry with 64 lines, group 2 present, the EXTI introduced in G0 and
no fixed line. -/
def cfgLines64 : Config :=
  { numLines := some 64, hasGroup2 := some TRUE,
    extiType := some EXTI_TYPE_NEWG0, imr1Mask := some 0, imr2Mask := some 0 }

/-- A registry with 63 lines, group 2 left to be inferred, the EXTI introduced
in G0 and no fixed line. -/
def cfgLines63 : Config :=
  { numLines := some 63, hasGroup2 := none,
    extiType := some EXTI_TYPE_NEWG0, imr1Mask := some 0, imr2Mask := some 0 }

/-- A registry with 16 lines that declares group 2 itself and defines the
fixed lines mask of group 1 only. -/
def cfgExplicitGroup2 : Config :=
  { numLines := some 16, hasGroup2 := some TRUE, extiType := none,
    imr1Mask := some 1, imr2Mask := none }

/-! ## Register blocks used as examples -/

/-- A register block where, in each group, line 0 is pending in the rising
pending register only. -/
def risingOnly : Machine :=
  { regs := fun r => if r = .RPR1 ∨ r = .RPR2 then 1 else 0, log := [] }

/-- A register block with the lines 0..3 of every register set and nothing
stored yet. -/
def lowNibble : Machine := { regs := fun _ => 0xF, log := [] }

/-! ## Line addressing -/

/-- The masks of group 1 are the powers of two below `2 ^ 32`. -/
theorem EXTI_MASK1_eq (line : Nat) (h : line < 32) :
    EXTI_MASK1 line = some (2 ^ line) := by
  have hlt : 2 ^ line < 4294967296 := Nat.pow_lt_pow_right (by decide) h
  simp [EXTI_MASK1, shlU32, toU32, U32, h, Nat.one_shiftLeft, Nat.mod_eq_of_lt hlt]

/-- The unsigned subtraction of `EXTI_MASK2` does not wrap on the lines of
group 2. -/
theorem subU32_line (line : Nat) (h1 : 32 ≤ line) (h2 : line < 64) :
    subU32 line 32 = line - 32 := by
  simp only [subU32, U32]
  omega

/-- The masks of group 2 are the powers of two below `2 ^ 32`. -/
theorem EXTI_MASK2_eq (line : Nat) (h1 : 32 ≤ line) (h2 : line < 64) :
    EXTI_MASK2 line = some (2 ^ (line - 32)) := by
  have hs : line - 32 < 32 := by omega
  have hlt : 2 ^ (line - 32) < 4294967296 := Nat.pow_lt_pow_right (by decide) hs
  simp [EXTI_MASK2, subU32_line line h1 h2, shlU32, toU32, U32, hs,
    Nat.one_shiftLeft, Nat.mod_eq_of_lt hlt]

/-- C1: for every line in 0..31, `EXTI_MASK1(line)` is defined and equals
`1 << (line mod 32)`, with group `line / 32 = 0`; for every line in 32..63,
`EXTI_MASK2(line)` is defined and equals `1 << (line mod 32)`, with group
`line / 32 = 1`.  In both cases the shift amount is `line mod 32` (the
subtraction of 32 does not wrap) and the result is below `2 ^ 32`, so the
conversion to `uint32_t` truncates nothing. -/
theorem mask_equals_reference :
    (∀ line, line < 32 →
      EXTI_MASK1 line = some (1 <<< (line % 32)) ∧ line / 32 = 0 ∧
      1 <<< (line % 32) < 2 ^ 32) ∧
    (∀ line, 32 ≤ line → line < 64 →
      EXTI_MASK2 line = some (1 <<< (line % 32)) ∧ line / 32 = 1 ∧
      subU32 line 32 = line % 32 ∧ 1 <<< (line % 32) < 2 ^ 32) := by
  refine ⟨fun line h => ?_, fun line h1 h2 => ?_⟩
  · have hm : line % 32 = line := Nat.mod_eq_of_lt h
    rw [hm, Nat.one_shiftLeft]
    exact ⟨EXTI_MASK1_eq line h, Nat.div_eq_of_lt h,
      Nat.pow_lt_pow_right (by decide) h⟩
  · have hm : line % 32 = line - 32 := by omega
    rw [hm, Nat.one_shiftLeft]
    refine ⟨EXTI_MASK2_eq line h1 h2, by omega, subU32_line line h1 h2, ?_⟩
    exact Nat.pow_lt_pow_right (by decide) (by omega)

/-- C1 at line 3 of group 1 and at line 63 of group 2. -/
theorem mask_equals_reference_witness :
    (EXTI_MASK1 3 = some (1 <<< (3 % 32)) ∧ 3 / 32 = 0 ∧
      1 <<< (3 % 32) < 2 ^ 32) ∧
    (EXTI_MASK2 63 = some (1 <<< (63 % 32)) ∧ 63 / 32 = 1 ∧
      subU32 63 32 = 63 % 32 ∧ 1 <<< (63 % 32) < 2 ^ 32) :=
  ⟨mask_equals_reference.1 3 (by decide),
   mask_equals_reference.2 63 (by decide) (by decide)⟩

/-- A power of two has its exponent as its only set bit. -/
theorem testBit_two_pow_iff (i j : Nat) : (2 ^ i).testBit j = true ↔ j = i := by
  rw [Nat.testBit_two_pow]
  simp [eq_comm]

/-- The address of a line of group 1. -/
theorem lineAddress_group1 (line : Nat) (h : line < 32) :
    lineAddress line = some (0, 2 ^ line) := by
  simp [lineAddress, h, EXTI_MASK1_eq line h]

/-- The address of a line of group 2. -/
theorem lineAddress_group2 (line : Nat) (h1 : 32 ≤ line) (h2 : line < 64) :
    lineAddress line = some (1, 2 ^ (line - 32)) := by
  have h : ¬ line < 32 := by omega
  simp [lineAddress, h, EXTI_MASK2_eq line h1 h2]

/-- C2: for every line in 0..63 the mask of its (group, mask) pair, from
`EXTI_MASK1` with group 0 for the lines 0..31 and from `EXTI_MASK2` with group
1 for the lines 32..63, has exactly one bit set, at an index `i` with
`32 * group + i = line`; two lines with the same pair are the same line. -/
theorem mask_addressing_invertible :
    (∀ line, line < 32 → ∃ m, EXTI_MASK1 line = some m ∧
      lineAddress line = some (0, m) ∧
      ∃ i, (∀ j, m.testBit j = true ↔ j = i) ∧ 32 * 0 + i = line) ∧
    (∀ line, 32 ≤ line → line < 64 → ∃ m, EXTI_MASK2 line = some m ∧
      lineAddress line = some (1, m) ∧
      ∃ i, (∀ j, m.testBit j = true ↔ j = i) ∧ 32 * 1 + i = line) ∧
    (∀ l1 l2, l1 < 64 → l2 < 64 → lineAddress l1 = lineAddress l2 → l1 = l2) := by
  refine ⟨fun line h => ?_, fun line h1 h2 => ?_, fun l1 l2 h1 h2 heq => ?_⟩
  · exact ⟨2 ^ line, EXTI_MASK1_eq line h, lineAddress_group1 line h, line,
      testBit_two_pow_iff line, by omega⟩
  · exact ⟨2 ^ (line - 32), EXTI_MASK2_eq line h1 h2,
      lineAddress_group2 line h1 h2, line - 32, testBit_two_pow_iff (line - 32),
      by omega⟩
  · by_cases c1 : l1 < 32 <;> by_cases c2 : l2 < 32
    · rw [lineAddress_group1 l1 c1, lineAddress_group1 l2 c2] at heq
      simp only [Option.some.injEq, Prod.mk.injEq, true_and] at heq
      exact Nat.pow_right_injective (le_refl 2) heq
    · rw [lineAddress_group1 l1 c1, lineAddress_group2 l2 (by omega) h2] at heq
      simp at heq
    · rw [lineAddress_group2 l1 (by omega) h1, lineAddress_group1 l2 c2] at heq
      simp at heq
    · rw [lineAddress_group2 l1 (by omega) h1,
        lineAddress_group2 l2 (by omega) h2] at heq
      simp only [Option.some.injEq, Prod.mk.injEq, true_and] at heq
      have := Nat.pow_right_injective (le_refl 2) heq
      omega

/-- C2 at line 3 (group index 0, bit 3) and at line 35 (group index 1,
bit 3). -/
theorem mask_addressing_invertible_witness :
    (∃ m, EXTI_MASK1 3 = some m ∧ lineAddress 3 = some (0, m) ∧
      ∃ i, (∀ j, m.testBit j = true ↔ j = i) ∧ 32 * 0 + i = 3) ∧
    (∃ m, EXTI_MASK2 35 = some m ∧ lineAddress 35 = some (1, m) ∧
      ∃ i, (∀ j, m.testBit j = true ↔ j = i) ∧ 32 * 1 + i = 35) :=
  ⟨mask_addressing_invertible.1 3 (by decide),
   mask_addressing_invertible.2.1 35 (by decide) (by decide)⟩

/-! ## Pending flags clearing -/

/-- Bits of the 32-bit complement. -/
theorem testBit_notU32 (v i : Nat) :
    (notU32 v).testBit i = (decide (i < 32) && !(v.testBit i)) := by
  simp only [notU32, U32, Nat.testBit_xor, Nat.testBit_two_pow_sub_one,
    Nat.testBit_mod_two_pow]
  cases decide (i < 32) <;> cases v.testBit i <;> rfl

/-- Conversion to `uint32_t` keeps a 32-bit value. -/
theorem toU32_of_lt (x : Nat) (h : x < U32) : toU32 x = x :=
  Nat.mod_eq_of_lt h

/-- Bits of a value converted to `uint32_t`. -/
theorem testBit_toU32 (x i : Nat) :
    (toU32 x).testBit i = (decide (i < 32) && x.testBit i) := by
  simp only [toU32, U32, Nat.testBit_mod_two_pow]

/-- After a write-1-to-clear store of `toU32 v` no bit of `v` is set. -/
theorem w1c_cleared (old v : Nat) : (old &&& notU32 (toU32 v)) &&& v = 0 := by
  apply Nat.eq_of_testBit_eq
  intro i
  simp only [Nat.testBit_and, testBit_notU32, testBit_toU32, Nat.zero_testBit]
  cases old.testBit i <;> cases decide (i < 32) <;> cases v.testBit i <;> rfl

/-- A write-1-to-clear store keeps the bits below 32 that are not stored as 1. -/
theorem w1c_kept (old v i : Nat) (hi : i < 32) (hv : v.testBit i = false) :
    (old &&& notU32 (toU32 v)).testBit i = old.testBit i := by
  simp [Nat.testBit_and, testBit_notU32, testBit_toU32, hi, hv]

/-- A second write-1-to-clear store of the same value changes nothing. -/
theorem w1c_twice (old n : Nat) : (old &&& n) &&& n = old &&& n := by
  rw [Nat.and_assoc, Nat.and_self]

/-- A write-1-to-clear store to a 32-bit register whose bits of `v` are all
clear changes nothing. -/
theorem w1c_noop (old v : Nat) (hold : old < U32) (hclr : old &&& v = 0) :
    old &&& notU32 (toU32 v) = old := by
  apply Nat.eq_of_testBit_eq
  intro i
  have hb : (old &&& v).testBit i = false := by rw [hclr]; exact Nat.zero_testBit i
  rw [Nat.testBit_and] at hb
  simp only [Nat.testBit_and, testBit_notU32, testBit_toU32]
  by_cases hi : i < 32
  · cases ho : old.testBit i <;> cases hv : v.testBit i <;> simp_all
  · have : old.testBit i = false := by
      apply Nat.testBit_lt_two_pow
      exact Nat.lt_of_lt_of_le hold (Nat.pow_le_pow_right (by decide) (by omega))
    simp [this]

/-- A mask that shares a bit with the fixed lines mask halts the classic and
the split clear of group 1 before any store. -/
theorem extiClearGroup1_halt (ty : Int) (imr mask : Nat) (m : Machine)
    (h : mask &&& imr ≠ 0) :
    extiClearGroup1 ty imr mask m = .halted "fixed lines" m := by
  unfold extiClearGroup1
  split <;> simp [osalDbgAssert, Outcome.andThen, h]

/-- A mask that shares a bit with the fixed lines mask halts the classic and
the split clear of group 2 before any store. -/
theorem extiClearGroup2_halt (ty : Int) (imr mask : Nat) (m : Machine)
    (h : mask &&& imr ≠ 0) :
    extiClearGroup2 ty imr mask m = .halted "fixed lines" m := by
  unfold extiClearGroup2
  split <;> simp [osalDbgAssert, Outcome.andThen, h]

/-- The classic clear of group 1 on a mask clear of the fixed lines. -/
theorem extiClearGroup1_classic (imr mask : Nat) (m : Machine)
    (h : mask &&& imr = 0) :
    extiClearGroup1 EXTI_TYPE_CLASSIC imr mask m = .done
      { regs := fun q =>
          if q = .PR1 then m.regs .PR1 &&& notU32 (toU32 mask) else m.regs q
        log := m.log ++ [(.PR1, toU32 mask)] } := by
  simp [extiClearGroup1, osalDbgAssert, Outcome.andThen, writeReg, hwWrite,
    Reg.isPending, h]

/-- The classic clear of group 2 on a mask clear of the fixed lines. -/
theorem extiClearGroup2_classic (imr mask : Nat) (m : Machine)
    (h : mask &&& imr = 0) :
    extiClearGroup2 EXTI_TYPE_CLASSIC imr mask m = .done
      { regs := fun q =>
          if q = .PR2 then m.regs .PR2 &&& notU32 (toU32 mask) else m.regs q
        log := m.log ++ [(.PR2, toU32 mask)] } := by
  simp [extiClearGroup2, osalDbgAssert, Outcome.andThen, writeReg, hwWrite,
    Reg.isPending, h]

/-- The split clear of group 1 on a mask clear of the fixed lines. -/
theorem extiClearGroup1_split (ty : Int) (imr mask : Nat) (m : Machine)
    (hty : ty ≠ EXTI_TYPE_CLASSIC) (h : mask &&& imr = 0) :
    extiClearGroup1 ty imr mask m = .done
      { regs := fun q =>
          if q = .FPR1 then m.regs .FPR1 &&& notU32 (toU32 mask)
          else if q = .RPR1 then m.regs .RPR1 &&& notU32 (toU32 mask)
          else m.regs q
        log := m.log ++ [(.RPR1, toU32 mask), (.FPR1, toU32 mask)] } := by
  simp [extiClearGroup1, osalDbgAssert, Outcome.andThen, writeReg, hwWrite,
    Reg.isPending, h, hty]

/-- The split clear of group 2 on a mask clear of the fixed lines. -/
theorem extiClearGroup2_split (ty : Int) (imr mask : Nat) (m : Machine)
    (hty : ty ≠ EXTI_TYPE_CLASSIC) (h : mask &&& imr = 0) :
    extiClearGroup2 ty imr mask m = .done
      { regs := fun q =>
          if q = .FPR2 then m.regs .FPR2 &&& notU32 (toU32 mask)
          else if q = .RPR2 then m.regs .RPR2 &&& notU32 (toU32 mask)
          else m.regs q
        log := m.log ++ [(.RPR2, toU32 mask), (.FPR2, toU32 mask)] } := by
  simp [extiClearGroup2, osalDbgAssert, Outcome.andThen, writeReg, hwWrite,
    Reg.isPending, h, hty]

/-- The EXTI introduced in G0 is not the classic one. -/
theorem NEWG0_ne_CLASSIC : EXTI_TYPE_NEWG0 ≠ EXTI_TYPE_CLASSIC := by decide

/-- C3: in the split-pending (`EXTI_TYPE_NEWG0`) variant, with the pending
registers write-1-to-clear, for every 32-bit mask that does not intersect the
fixed lines mask and every prior register content, `extiClearGroup1(mask)`
(resp. `extiClearGroup2(mask)`) completes, stores exactly `mask` to the rising
pending and then to the falling pending register of the group, and afterwards
every bit of `mask` is clear in both registers. -/
theorem split_clear_never_partial (imr mask : Nat) (m : Machine)
    (hmask : mask < U32) (hfix : mask &&& imr = 0) :
    (∃ m1, extiClearGroup1 EXTI_TYPE_NEWG0 imr mask m = .done m1 ∧
      m1.regs .RPR1 &&& mask = 0 ∧ m1.regs .FPR1 &&& mask = 0 ∧
      m1.log = m.log ++ [(.RPR1, mask), (.FPR1, mask)]) ∧
    (∃ m2, extiClearGroup2 EXTI_TYPE_NEWG0 imr mask m = .done m2 ∧
      m2.regs .RPR2 &&& mask = 0 ∧ m2.regs .FPR2 &&& mask = 0 ∧
      m2.log = m.log ++ [(.RPR2, mask), (.FPR2, mask)]) := by
  constructor
  · refine ⟨_, extiClearGroup1_split _ imr mask m NEWG0_ne_CLASSIC hfix, ?_, ?_, ?_⟩
    · simpa using w1c_cleared (m.regs .RPR1) mask
    · simpa using w1c_cleared (m.regs .FPR1) mask
    · simp [toU32_of_lt mask hmask]
  · refine ⟨_, extiClearGroup2_split _ imr mask m NEWG0_ne_CLASSIC hfix, ?_, ?_, ?_⟩
    · simpa using w1c_cleared (m.regs .RPR2) mask
    · simpa using w1c_cleared (m.regs .FPR2) mask
    · simp [toU32_of_lt mask hmask]

/-- C3 at mask `0x00000001` with no fixed line, bit 0 pending on the rising
side only: `extiClearGroup2` stores bit 0 to both `RPR2` and `FPR2`. -/
theorem split_clear_never_partial_witness :
    (∃ m1, extiClearGroup1 EXTI_TYPE_NEWG0 0 1 risingOnly = .done m1 ∧
      m1.regs .RPR1 &&& 1 = 0 ∧ m1.regs .FPR1 &&& 1 = 0 ∧
      m1.log = risingOnly.log ++ [(.RPR1, 1), (.FPR1, 1)]) ∧
    (∃ m2, extiClearGroup2 EXTI_TYPE_NEWG0 0 1 risingOnly = .done m2 ∧
      m2.regs .RPR2 &&& 1 = 0 ∧ m2.regs .FPR2 &&& 1 = 0 ∧
      m2.log = risingOnly.log ++ [(.RPR2, 1), (.FPR2, 1)]) :=
  split_clear_never_partial 0 1 risingOnly (by decide) (by decide)

/-- C4: in the classic variant, for every 32-bit mask that does not intersect
the fixed lines mask, `extiClearGroup1(mask)` (resp. `extiClearGroup2(mask)`)
completes with exactly one store, of the value `mask` to the pending register
`PR1` (resp. `PR2`) of the group, and every other register of the block keeps
its content. -/
theorem classic_clear_single_write (imr mask : Nat) (m : Machine)
    (hmask : mask < U32) (hfix : mask &&& imr = 0) :
    (∃ m1, extiClearGroup1 EXTI_TYPE_CLASSIC imr mask m = .done m1 ∧
      m1.log = m.log ++ [(.PR1, mask)] ∧
      ∀ r, r ≠ .PR1 → m1.regs r = m.regs r) ∧
    (∃ m2, extiClearGroup2 EXTI_TYPE_CLASSIC imr mask m = .done m2 ∧
      m2.log = m.log ++ [(.PR2, mask)] ∧
      ∀ r, r ≠ .PR2 → m2.regs r = m.regs r) := by
  constructor
  · refine ⟨_, extiClearGroup1_classic imr mask m hfix, ?_, ?_⟩
    · simp [toU32_of_lt mask hmask]
    · intro r hr
      simp [hr]
  · refine ⟨_, extiClearGroup2_classic imr mask m hfix, ?_, ?_⟩
    · simp [toU32_of_lt mask hmask]
    · intro r hr
      simp [hr]

/-- C4 at fixed lines mask `0x0001` and mask `EXTI_MASK1(3) = 0x0008`: the
value `0x0008` is stored to `PR1` and nothing else is. -/
theorem classic_clear_single_write_witness :
    EXTI_MASK1 3 = some 8 ∧
    (∃ m1, extiClearGroup1 EXTI_TYPE_CLASSIC 1 8 lowNibble = .done m1 ∧
      m1.log = lowNibble.log ++ [(.PR1, 8)] ∧
      ∀ r, r ≠ .PR1 → m1.regs r = lowNibble.regs r) :=
  ⟨by decide, (classic_clear_single_write 1 8 lowNibble (by decide) (by decide)).1⟩

/-- C5: in both variants and for both groups, `extiClearGroupN(mask)` ends in
the fatal assertion exactly when `mask` intersects the fixed lines mask of the
group; it then halts with the register block and the record of stores as they
were before the call.  When `mask` does not intersect the fixed lines mask the
call completes and has made the stores of its variant. -/
theorem clear_asserts_fixed_lines (ty : Int) (imr mask : Nat) (m : Machine) :
    (((extiClearGroup1 ty imr mask m).isHalted = true ↔ mask &&& imr ≠ 0) ∧
      (mask &&& imr ≠ 0 →
        extiClearGroup1 ty imr mask m = .halted "fixed lines" m) ∧
      (mask &&& imr = 0 → ∃ m1, extiClearGroup1 ty imr mask m = .done m1 ∧
        m1.log = m.log ++
          (if ty = EXTI_TYPE_CLASSIC then [(.PR1, toU32 mask)]
           else [(.RPR1, toU32 mask), (.FPR1, toU32 mask)]))) ∧
    (((extiClearGroup2 ty imr mask m).isHalted = true ↔ mask &&& imr ≠ 0) ∧
      (mask &&& imr ≠ 0 →
        extiClearGroup2 ty imr mask m = .halted "fixed lines" m) ∧
      (mask &&& imr = 0 → ∃ m2, extiClearGroup2 ty imr mask m = .done m2 ∧
        m2.log = m.log ++
          (if ty = EXTI_TYPE_CLASSIC then [(.PR2, toU32 mask)]
           else [(.RPR2, toU32 mask), (.FPR2, toU32 mask)]))) := by
  have done1 : mask &&& imr = 0 → ∃ m1, extiClearGroup1 ty imr mask m = .done m1 ∧
      m1.log = m.log ++
        (if ty = EXTI_TYPE_CLASSIC then [(.PR1, toU32 mask)]
         else [(.RPR1, toU32 mask), (.FPR1, toU32 mask)]) := by
    intro h
    by_cases hty : ty = EXTI_TYPE_CLASSIC
    · subst hty
      exact ⟨_, extiClearGroup1_classic imr mask m h, by simp⟩
    · exact ⟨_, extiClearGroup1_split ty imr mask m hty h, by simp [hty]⟩
  have done2 : mask &&& imr = 0 → ∃ m2, extiClearGroup2 ty imr mask m = .done m2 ∧
      m2.log = m.log ++
        (if ty = EXTI_TYPE_CLASSIC then [(.PR2, toU32 mask)]
         else [(.RPR2, toU32 mask), (.FPR2, toU32 mask)]) := by
    intro h
    by_cases hty : ty = EXTI_TYPE_CLASSIC
    · subst hty
      exact ⟨_, extiClearGroup2_classic imr mask m h, by simp⟩
    · exact ⟨_, extiClearGroup2_split ty imr mask m hty h, by simp [hty]⟩
  refine ⟨⟨⟨fun hh hz => ?_, fun hne => ?_⟩, extiClearGroup1_halt ty imr mask m, done1⟩,
    ⟨⟨fun hh hz => ?_, fun hne => ?_⟩, extiClearGroup2_halt ty imr mask m, done2⟩⟩
  · obtain ⟨m1, hm1, _⟩ := done1 hz
    rw [hm1] at hh
    simp [Outcome.isHalted] at hh
  · rw [extiClearGroup1_halt ty imr mask m hne]
    rfl
  · obtain ⟨m2, hm2, _⟩ := done2 hz
    rw [hm2] at hh
    simp [Outcome.isHalted] at hh
  · rw [extiClearGroup2_halt ty imr mask m hne]
    rfl

/-- C5 in the classic variant with line 0 fixed: the mask `0x0009` halts
`extiClearGroup1` with the block untouched, the mask `0x0008` stores to
`PR1`. -/
theorem clear_asserts_fixed_lines_witness :
    extiClearGroup1 EXTI_TYPE_CLASSIC 1 9 lowNibble = .halted "fixed lines" lowNibble ∧
    (∃ m1, extiClearGroup1 EXTI_TYPE_CLASSIC 1 8 lowNibble = .done m1 ∧
      m1.log = lowNibble.log ++
        (if EXTI_TYPE_CLASSIC = EXTI_TYPE_CLASSIC then [(.PR1, toU32 8)]
         else [(.RPR1, toU32 8), (.FPR1, toU32 8)])) :=
  ⟨(clear_asserts_fixed_lines EXTI_TYPE_CLASSIC 1 9 lowNibble).1.2.1 (by decide),
   (clear_asserts_fixed_lines EXTI_TYPE_CLASSIC 1 8 lowNibble).1.2.2 (by decide)⟩

/-- A line that is fixed is not in a mask clear of the fixed lines. -/
theorem not_in_mask_of_fixed (imr mask i : Nat) (hfix : mask &&& imr = 0)
    (h : mask.testBit i = false ∨ imr.testBit i = true) :
    mask.testBit i = false := by
  rcases h with h | h
  · exact h
  · have hb : (mask &&& imr).testBit i = false := by
      rw [hfix]; exact Nat.zero_testBit i
    rw [Nat.testBit_and, h, Bool.and_true] at hb
    exact hb

/-- C6: with the pending registers write-1-to-clear, for every mask that does
not intersect the fixed lines mask of group N and every prior register state,
`extiClearGroupN(mask)` completes in either variant and, in every register of
the block, the bit of every line that is not in `mask`, hence of every fixed
line, has the value it had before the call. -/
theorem clear_keeps_other_lines (ty : Int) (imr mask : Nat) (m : Machine)
    (hfix : mask &&& imr = 0) :
    (∃ m1, extiClearGroup1 ty imr mask m = .done m1 ∧
      ∀ r i, i < 32 → (mask.testBit i = false ∨ imr.testBit i = true) →
        (m1.regs r).testBit i = (m.regs r).testBit i) ∧
    (∃ m2, extiClearGroup2 ty imr mask m = .done m2 ∧
      ∀ r i, i < 32 → (mask.testBit i = false ∨ imr.testBit i = true) →
        (m2.regs r).testBit i = (m.regs r).testBit i) := by
  by_cases hty : ty = EXTI_TYPE_CLASSIC
  · subst hty
    constructor
    · refine ⟨_, extiClearGroup1_classic imr mask m hfix, fun r i hi h => ?_⟩
      have hv := not_in_mask_of_fixed imr mask i hfix h
      by_cases hr : r = .PR1
      · subst hr
        simpa using w1c_kept (m.regs .PR1) mask i hi hv
      · simp [hr]
    · refine ⟨_, extiClearGroup2_classic imr mask m hfix, fun r i hi h => ?_⟩
      have hv := not_in_mask_of_fixed imr mask i hfix h
      by_cases hr : r = .PR2
      · subst hr
        simpa using w1c_kept (m.regs .PR2) mask i hi hv
      · simp [hr]
  · constructor
    · refine ⟨_, extiClearGroup1_split ty imr mask m hty hfix, fun r i hi h => ?_⟩
      have hv := not_in_mask_of_fixed imr mask i hfix h
      by_cases hf : r = .FPR1
      · subst hf
        simpa using w1c_kept (m.regs .FPR1) mask i hi hv
      · by_cases hr : r = .RPR1
        · subst hr
          simpa using w1c_kept (m.regs .RPR1) mask i hi hv
        · simp [hf, hr]
    · refine ⟨_, extiClearGroup2_split ty imr mask m hty hfix, fun r i hi h => ?_⟩
      have hv := not_in_mask_of_fixed imr mask i hfix h
      by_cases hf : r = .FPR2
      · subst hf
        simpa using w1c_kept (m.regs .FPR2) mask i hi hv
      · by_cases hr : r = .RPR2
        · subst hr
          simpa using w1c_kept (m.regs .RPR2) mask i hi hv
        · simp [hf, hr]

/-- C6 in the split-pending variant with line 0 fixed and mask `0x0008`. -/
theorem clear_keeps_other_lines_witness :
    (∃ m1, extiClearGroup1 EXTI_TYPE_NEWG0 1 8 lowNibble = .done m1 ∧
      ∀ r i, i < 32 → (Nat.testBit 8 i = false ∨ Nat.testBit 1 i = true) →
        (m1.regs r).testBit i = (lowNibble.regs r).testBit i) ∧
    (∃ m2, extiClearGroup2 EXTI_TYPE_NEWG0 1 8 lowNibble = .done m2 ∧
      ∀ r i, i < 32 → (Nat.testBit 8 i = false ∨ Nat.testBit 1 i = true) →
        (m2.regs r).testBit i = (lowNibble.regs r).testBit i) :=
  clear_keeps_other_lines EXTI_TYPE_NEWG0 1 8 lowNibble (by decide)

/-- C7: for every mask that does not intersect the fixed lines mask and every
prior register state, in the classic and in the split-pending variant, a
second `extiClearGroup1(mask)` right after the first completes and leaves the
registers as the first call left them; and on a block of 32-bit registers
where the lines of `mask` are already clear in the pending register(s) of the
variant, the call completes and leaves every register as it was. -/
theorem clear_idempotent (ty : Int) (imr mask : Nat) (m : Machine)
    (hfix : mask &&& imr = 0) :
    (∃ m1 m2, extiClearGroup1 ty imr mask m = .done m1 ∧
      extiClearGroup1 ty imr mask m1 = .done m2 ∧ m2.regs = m1.regs) ∧
    (m.WF →
      (if ty = EXTI_TYPE_CLASSIC then m.regs .PR1 &&& mask = 0
       else m.regs .RPR1 &&& mask = 0 ∧ m.regs .FPR1 &&& mask = 0) →
      ∃ m1, extiClearGroup1 ty imr mask m = .done m1 ∧ m1.regs = m.regs) := by
  by_cases hty : ty = EXTI_TYPE_CLASSIC
  · subst hty
    constructor
    · refine ⟨_, _, extiClearGroup1_classic imr mask m hfix,
        extiClearGroup1_classic imr mask _ hfix, ?_⟩
      funext q
      by_cases hq : q = .PR1
      · simp [hq, w1c_twice]
      · simp [hq]
    · intro hwf hclr
      rw [if_pos rfl] at hclr
      refine ⟨_, extiClearGroup1_classic imr mask m hfix, ?_⟩
      funext q
      by_cases hq : q = .PR1
      · subst hq
        simpa using w1c_noop (m.regs .PR1) mask (hwf .PR1) hclr
      · simp [hq]
  · constructor
    · refine ⟨_, _, extiClearGroup1_split ty imr mask m hty hfix,
        extiClearGroup1_split ty imr mask _ hty hfix, ?_⟩
      funext q
      by_cases hf : q = .FPR1
      · simp [hf, w1c_twice]
      · by_cases hr : q = .RPR1
        · simp [hr, w1c_twice]
        · simp [hf, hr]
    · intro hwf hclr
      rw [if_neg hty] at hclr
      refine ⟨_, extiClearGroup1_split ty imr mask m hty hfix, ?_⟩
      funext q
      by_cases hf : q = .FPR1
      · subst hf
        simpa using w1c_noop (m.regs .FPR1) mask (hwf .FPR1) hclr.2
      · by_cases hr : q = .RPR1
        · subst hr
          simpa using w1c_noop (m.regs .RPR1) mask (hwf .RPR1) hclr.1
        · simp [hf, hr]

/-- C7 in the split-pending variant with line 0 fixed and mask `0x0008`. -/
theorem clear_idempotent_witness :
    (∃ m1 m2, extiClearGroup1 EXTI_TYPE_NEWG0 1 8 lowNibble = .done m1 ∧
      extiClearGroup1 EXTI_TYPE_NEWG0 1 8 m1 = .done m2 ∧ m2.regs = m1.regs) ∧
    (∃ m1, extiClearGroup1 EXTI_TYPE_NEWG0 1 8 risingOnly = .done m1 ∧
      m1.regs = risingOnly.regs) :=
  ⟨(clear_idempotent EXTI_TYPE_NEWG0 1 8 lowNibble (by decide)).1,
   (clear_idempotent EXTI_TYPE_NEWG0 1 8 risingOnly (by decide)).2
     (fun r => by cases r <;> decide) (by decide)⟩

/-! ## Mode encoding -/

/-- A 32-bit mode has no bit outside the mode mask exactly when it is below
8. -/
theorem mode_in_mask_iff (mode : Nat) (h : mode < U32) :
    mode &&& notU32 EXTI_MODE_MASK = 0 ↔ mode < 8 := by
  constructor
  · intro hz
    apply Nat.lt_pow_two_of_testBit mode (n := 3)
    intro i hi
    by_cases h32 : i < 32
    · have hb : (mode &&& notU32 EXTI_MODE_MASK).testBit i = false := by
        rw [hz]; exact Nat.zero_testBit i
      have h7 : Nat.testBit 7 i = false :=
        Nat.testBit_lt_two_pow
          (Nat.lt_of_lt_of_le (by decide : 7 < 2 ^ 3)
            (Nat.pow_le_pow_right (by decide) hi))
      simpa [Nat.testBit_and, testBit_notU32, EXTI_MODE_MASK, h32, h7] using hb
    · exact Nat.testBit_lt_two_pow
        (Nat.lt_of_lt_of_le h (Nat.pow_le_pow_right (by decide) (by omega)))
  · intro h8
    interval_cases mode <;> decide

/-- C8: with `decode(mode) = (mode & EXTI_MODE_EDGES_MASK, mode &
EXTI_MODE_ACTION_MASK)` and `encode(edge, action) = edge | action`, the 32-bit
modes with `mode & ~EXTI_MODE_MASK == 0` are the modes 0..7, and for each of
them `encode(decode(mode)) = mode` and `decode(encode(decode(mode))) =
decode(mode)`; the edge and action masks do not overlap and together make the
mode mask. -/
theorem mode_round_trip :
    (∀ mode, mode < U32 → (modeValid mode = true ↔ mode < 8)) ∧
    (∀ mode, mode < U32 → modeValid mode = true →
      encodeMode (decodeMode mode).1 (decodeMode mode).2 = mode ∧
      decodeMode (encodeMode (decodeMode mode).1 (decodeMode mode).2) =
        decodeMode mode) ∧
    EXTI_MODE_EDGES_MASK &&& EXTI_MODE_ACTION_MASK = 0 ∧
    EXTI_MODE_EDGES_MASK ||| EXTI_MODE_ACTION_MASK = EXTI_MODE_MASK := by
  have valid_iff : ∀ mode, mode < U32 → (modeValid mode = true ↔ mode < 8) := by
    intro mode h
    rw [← mode_in_mask_iff mode h]
    simp [modeValid]
  refine ⟨valid_iff, fun mode h hv => ?_, by decide, by decide⟩
  have h8 : mode < 8 := (valid_iff mode h).1 hv
  have henc : encodeMode (decodeMode mode).1 (decodeMode mode).2 = mode := by
    interval_cases mode <;> decide
  exact ⟨henc, by rw [henc]⟩

/-- C8 at the mode `EXTI_MODE_BOTH_EDGES | EXTI_MODE_ACTION_EVENT = 7`. -/
theorem mode_round_trip_witness :
    (modeValid 7 = true ↔ 7 < 8) ∧
    (encodeMode (decodeMode 7).1 (decodeMode 7).2 = 7 ∧
      decodeMode (encodeMode (decodeMode 7).1 (decodeMode 7).2) = decodeMode 7) :=
  ⟨mode_round_trip.1 7 (by decide), mode_round_trip.2.1 7 (by decide) (by decide)⟩

/-- C9: the four edge constants combined with the two action constants by
bitwise OR give 8 pairwise distinct values, each with no bit outside
`EXTI_MODE_MASK`, and every 32-bit mode with no bit outside `EXTI_MODE_MASK`
is one of them; the edge field mask is exactly the bits 0 and 1 and the action
field mask exactly the bit 2. -/
theorem mode_encoding_closed :
    modeCombinations.length = 8 ∧ modeCombinations.Nodup ∧
    (∀ mode ∈ modeCombinations, mode &&& notU32 EXTI_MODE_MASK = 0) ∧
    (∀ mode, mode < U32 → mode &&& notU32 EXTI_MODE_MASK = 0 →
      mode ∈ modeCombinations) ∧
    (∀ i, EXTI_MODE_EDGES_MASK.testBit i = true ↔ i = 0 ∨ i = 1) ∧
    (∀ i, EXTI_MODE_ACTION_MASK.testBit i = true ↔ i = 2) := by
  refine ⟨by decide, by decide, by decide, fun mode h hz => ?_, fun i => ?_, fun i => ?_⟩
  · have h8 : mode < 8 := (mode_in_mask_iff mode h).1 hz
    interval_cases mode <;> decide
  · have : EXTI_MODE_EDGES_MASK = 2 ^ 2 - 1 := by decide
    rw [this, Nat.testBit_two_pow_sub_one]
    simp only [decide_eq_true_eq]
    omega
  · have : EXTI_MODE_ACTION_MASK = 2 ^ 2 := by decide
    rw [this, testBit_two_pow_iff]

/-- C9 at the mode 5, which is `EXTI_MODE_RISING_EDGE |
EXTI_MODE_ACTION_EVENT`. -/
theorem mode_encoding_closed_witness :
    5 ∈ modeCombinations ∧ 5 &&& notU32 EXTI_MODE_MASK = 0 :=
  ⟨mode_encoding_closed.2.2.2.1 5 (by decide) (by decide),
   mode_encoding_closed.2.2.1 5 (by decide)⟩

/-! ## Build-time checks -/

/-- C10: the header reaches no `#error` directive if and only if the line
count is defined and lies in 0..63 inclusive, the variant tag is absent
(classic by default), classic or split-pending, the fixed lines mask of group
1 is defined, and the fixed lines mask of group 2 is defined whenever the line
count exceeds 32; every other configuration reaches an `#error`. -/
theorem header_checks_iff_valid (cfg : Config) :
    (headerAccepts cfg = true ↔ specValidConfig cfg) ∧
    (¬ specValidConfig cfg ↔ headerErrors cfg ≠ []) := by
  have key : headerAccepts cfg = true ↔ specValidConfig cfg := by
    rcases cfg with ⟨nl, hg, ty, i1, i2⟩
    rcases nl with _ | n <;> rcases ty with _ | t <;> rcases i1 with _ | a <;>
      rcases i2 with _ | b <;>
      simp [headerAccepts, headerErrors, specValidConfig, STM32_EXTI_TYPE,
        ppValue, EXTI_TYPE_CLASSIC, EXTI_TYPE_NEWG0] <;>
      omega
  refine ⟨key, ?_⟩
  rw [← key]
  simp [headerAccepts]

/-- An accepted registry has a line count between 0 and 63. -/
theorem headerAccepts_numLines (cfg : Config) (n : Int)
    (hacc : headerAccepts cfg = true) (hn : cfg.numLines = some n) :
    0 ≤ n ∧ n ≤ 63 := by
  rcases cfg with ⟨nl, hg, ty, i1, i2⟩
  simp only at hn
  subst hn
  simp only [headerAccepts, headerErrors, ppValue, Option.getD_some,
    List.isEmpty_iff, List.append_eq_nil] at hacc
  have h := hacc.1.1.2
  by_contra hc
  rw [if_pos (by omega)] at h
  simp at h

/-- C11, as stated, fails: the header rejects the registry with 64 lines
(group 2 present, EXTI introduced in G0) with the error on the value of
`STM32_EXTI_NUM_LINES`, and no accepted registry has a line count that line 63
is below. -/
theorem no_accepted_count_above_line63 :
    headerErrors cfgLines64 = ["invalid STM32_EXTI_NUM_LINES value"] ∧
    headerAccepts cfgLines64 = false ∧
    ¬ ∃ cfg n, headerAccepts cfg = true ∧ cfg.numLines = some n ∧ 63 < n := by
  refine ⟨by decide, by decide, ?_⟩
  rintro ⟨cfg, n, hacc, hn, hlt⟩
  have := (headerAccepts_numLines cfg n hacc hn).2
  omega

/-- C11, amended: the largest line count the header accepts is 63, and every
line identifier in 0..62 is below the line count of the accepted registry with
63 lines, which has group 2.  Line 63 is below no accepted line count, but the
macros of the header compare no line with the line count: `EXTI_MASK2(63)` is
the defined mask `0x80000000`, and in that registry, of the split-pending
variant, `extiClearGroup2` of it completes with its stores to `RPR2` and
`FPR2` whenever line 63 is not a fixed line. -/
theorem lines_addressable_when_accepted :
    (∀ cfg n, headerAccepts cfg = true → cfg.numLines = some n → n ≤ 63) ∧
    (headerAccepts cfgLines63 = true ∧ hasGroup2Ops cfgLines63 = true ∧
      ∀ line : Nat, line ≤ 62 →
        ∃ n, cfgLines63.numLines = some n ∧ (line : Int) < n) ∧
    (EXTI_MASK2 63 = some 0x80000000 ∧
      ∀ imr m, 0x80000000 &&& imr = 0 →
        ∃ m2, extiClearGroup2 (STM32_EXTI_TYPE cfgLines63) imr 0x80000000 m =
            .done m2 ∧
          m2.log = m.log ++ [(.RPR2, 0x80000000), (.FPR2, 0x80000000)] ∧
          m2.regs .RPR2 &&& 0x80000000 = 0 ∧ m2.regs .FPR2 &&& 0x80000000 = 0) := by
  refine ⟨fun cfg n hacc hn => (headerAccepts_numLines cfg n hacc hn).2,
    ⟨by decide, by decide, fun line hl => ⟨63, rfl, by omega⟩⟩,
    by decide, fun imr m hfix => ?_⟩
  have hty : STM32_EXTI_TYPE cfgLines63 ≠ EXTI_TYPE_CLASSIC := by decide
  have hu : toU32 0x80000000 = 0x80000000 := by decide
  refine ⟨_, extiClearGroup2_split _ imr 0x80000000 m hty hfix, ?_, ?_, ?_⟩
  · simp [hu]
  · simpa using w1c_cleared (m.regs .RPR2) 0x80000000
  · simpa using w1c_cleared (m.regs .FPR2) 0x80000000

/-- C11, amended, at line 62 and at the clear of line 63 with no fixed line. -/
theorem lines_addressable_when_accepted_witness :
    (63 : Int) ≤ 63 ∧
    (∃ n, cfgLines63.numLines = some n ∧ ((62 : Nat) : Int) < n) ∧
    (∃ m2, extiClearGroup2 (STM32_EXTI_TYPE cfgLines63) 0 0x80000000 lowNibble =
        .done m2 ∧
      m2.log = lowNibble.log ++ [(.RPR2, 0x80000000), (.FPR2, 0x80000000)] ∧
      m2.regs .RPR2 &&& 0x80000000 = 0 ∧ m2.regs .FPR2 &&& 0x80000000 = 0) :=
  ⟨lines_addressable_when_accepted.1 cfgLines63 63 (by decide) rfl,
   lines_addressable_when_accepted.2.1.2.2 62 (by decide),
   lines_addressable_when_accepted.2.2.2 0 lowNibble (by decide)⟩

/-- C12, as stated, fails: a registry with 16 lines that declares
`STM32_EXTI_HAS_GROUP2` as `TRUE` is accepted and has the group 2 operations,
with a line count that is not above 32. -/
theorem group2_with_sixteen_lines :
    headerAccepts cfgExplicitGroup2 = true ∧
    hasGroup2Ops cfgExplicitGroup2 = true ∧
    cfgExplicitGroup2.numLines = some 16 ∧ ¬ (32 : Int) < 16 := by
  decide

/-- C12, amended: the group 2 operations are present exactly when
`STM32_EXTI_HAS_GROUP2` is `TRUE`.  When the registry does not supply it, it
is derived as `TRUE` exactly when the line count is above 32 and as `FALSE`
otherwise, so group 2 is then present only with more than 32 lines.  When the
registry supplies it, the supplied value is used whatever the line count. -/
theorem group2_presence (cfg : Config) :
    (cfg.hasGroup2 = none → ∀ n, cfg.numLines = some n →
      STM32_EXTI_HAS_GROUP2 cfg = (if 32 < n then TRUE else FALSE) ∧
      (hasGroup2Ops cfg = true ↔ 32 < n)) ∧
    (∀ v, cfg.hasGroup2 = some v →
      STM32_EXTI_HAS_GROUP2 cfg = v ∧ (hasGroup2Ops cfg = true ↔ v = TRUE)) := by
  rcases cfg with ⟨nl, hg, ty, i1, i2⟩
  constructor
  · intro h n hn
    simp only at h hn
    subst h hn
    by_cases c : 32 < n
    · have c2 : ¬ n ≤ 32 := by omega
      simp [STM32_EXTI_HAS_GROUP2, hasGroup2Ops, ppValue, c, c2]
    · have c2 : n ≤ 32 := by omega
      simp [STM32_EXTI_HAS_GROUP2, hasGroup2Ops, ppValue, c, c2, TRUE, FALSE]
  · intro v h
    simp only at h
    subst h
    simp [STM32_EXTI_HAS_GROUP2, hasGroup2Ops]

/-- C12, amended, at the registry with 63 lines and no `STM32_EXTI_HAS_GROUP2`
and at the registry with 16 lines that supplies `TRUE`. -/
theorem group2_presence_witness :
    (STM32_EXTI_HAS_GROUP2 cfgLines63 = (if (32 : Int) < 63 then TRUE else FALSE) ∧
      (hasGroup2Ops cfgLines63 = true ↔ (32 : Int) < 63)) ∧
    (STM32_EXTI_HAS_GROUP2 cfgExplicitGroup2 = TRUE ∧
      (hasGroup2Ops cfgExplicitGroup2 = true ↔ TRUE = TRUE)) :=
  ⟨(group2_presence cfgLines63).1 rfl 63 rfl,
   (group2_presence cfgExplicitGroup2).2 TRUE rfl⟩

/-! ## Clearing as a targeted store -/

/-- The complement of a value does not change by converting the value to
`uint32_t` first. -/
theorem notU32_toU32 (v : Nat) : notU32 (toU32 v) = notU32 v := by
  simp only [notU32, toU32, Nat.mod_mod]

/-- Clearing the lines of `a` and then those of `b` is clearing those of
`a ||| b`. -/
theorem w1c_or (old a b : Nat) :
    (old &&& notU32 (toU32 a)) &&& notU32 (toU32 b) =
      old &&& notU32 (toU32 (a ||| b)) := by
  apply Nat.eq_of_testBit_eq
  intro i
  simp only [Nat.testBit_and, testBit_notU32, testBit_toU32, Nat.testBit_or]
  cases old.testBit i <;> cases decide (i < 32) <;> cases a.testBit i <;>
    cases b.testBit i <;> rfl

/-- Two write-1-to-clear stores commute. -/
theorem w1c_comm (old x y : Nat) : (old &&& x) &&& y = (old &&& y) &&& x := by
  rw [Nat.and_assoc, Nat.and_comm x y, ← Nat.and_assoc]

/-- The union of two masks clear of the fixed lines is clear of them. -/
theorem or_clear_of_fixed (a b imr : Nat) (ha : a &&& imr = 0)
    (hb : b &&& imr = 0) : (a ||| b) &&& imr = 0 := by
  apply Nat.eq_of_testBit_eq
  intro i
  have h1 : (a &&& imr).testBit i = false := by rw [ha]; exact Nat.zero_testBit i
  have h2 : (b &&& imr).testBit i = false := by rw [hb]; exact Nat.zero_testBit i
  rw [Nat.testBit_and] at h1 h2
  simp only [Nat.testBit_and, Nat.testBit_or, Nat.zero_testBit]
  cases hx : a.testBit i <;> cases hy : b.testBit i <;> cases hz : imr.testBit i <;>
    simp_all

/-- The registers after a completed clear of group 1, in either variant. -/
theorem extiClearGroup1_regs (ty : Int) (imr mask : Nat) (m : Machine)
    (h : mask &&& imr = 0) :
    ∃ m1, extiClearGroup1 ty imr mask m = .done m1 ∧
      m1.log = m.log ++
        (if ty = EXTI_TYPE_CLASSIC then [(.PR1, toU32 mask)]
         else [(.RPR1, toU32 mask), (.FPR1, toU32 mask)]) ∧
      ∀ q, m1.regs q =
        if (if ty = EXTI_TYPE_CLASSIC then q = .PR1 else q = .RPR1 ∨ q = .FPR1)
        then m.regs q &&& notU32 (toU32 mask) else m.regs q := by
  by_cases hty : ty = EXTI_TYPE_CLASSIC
  · subst hty
    refine ⟨_, extiClearGroup1_classic imr mask m h, by simp, fun q => ?_⟩
    by_cases hq : q = .PR1
    · simp [hq]
    · simp [hq]
  · refine ⟨_, extiClearGroup1_split ty imr mask m hty h, by simp [hty], fun q => ?_⟩
    by_cases hf : q = .FPR1
    · simp [hf, hty]
    · by_cases hr : q = .RPR1
      · simp [hr, hty]
      · simp [hf, hr, hty]

/-- The registers after a completed clear of group 2, in either variant. -/
theorem extiClearGroup2_regs (ty : Int) (imr mask : Nat) (m : Machine)
    (h : mask &&& imr = 0) :
    ∃ m2, extiClearGroup2 ty imr mask m = .done m2 ∧
      m2.log = m.log ++
        (if ty = EXTI_TYPE_CLASSIC then [(.PR2, toU32 mask)]
         else [(.RPR2, toU32 mask), (.FPR2, toU32 mask)]) ∧
      ∀ q, m2.regs q =
        if (if ty = EXTI_TYPE_CLASSIC then q = .PR2 else q = .RPR2 ∨ q = .FPR2)
        then m.regs q &&& notU32 (toU32 mask) else m.regs q := by
  by_cases hty : ty = EXTI_TYPE_CLASSIC
  · subst hty
    refine ⟨_, extiClearGroup2_classic imr mask m h, by simp, fun q => ?_⟩
    by_cases hq : q = .PR2
    · simp [hq]
    · simp [hq]
  · refine ⟨_, extiClearGroup2_split ty imr mask m hty h, by simp [hty], fun q => ?_⟩
    by_cases hf : q = .FPR2
    · simp [hf, hty]
    · by_cases hr : q = .RPR2
      · simp [hr, hty]
      · simp [hf, hr, hty]

/-- C13: for masks that do not intersect the fixed lines mask, the stores
`extiClearGroupN(mask)` makes are the value `mask` to the pending register(s)
of the variant and nothing else, whatever the registers held before.  With the
pending registers write-1-to-clear, `extiClearGroup1(a)` followed by
`extiClearGroup1(b)` leaves the registers as `extiClearGroup1(b)` followed by
`extiClearGroup1(a)` does and as a single `extiClearGroup1(a | b)` does: the
pending register(s) of the variant hold their former content with exactly the
lines of `a | b` cleared, every other register its former content.  When `a`
and `b` are disjoint, `extiClearGroup1(b)` alone leaves the lines of `a` in
every register as they were before it, and `extiClearGroup1(a)` alone those of
`b`. -/
theorem clear_is_targeted_store (ty : Int) (imr a b : Nat) (m : Machine)
    (ha : a &&& imr = 0) (hb : b &&& imr = 0) :
    (∀ s, ∃ s1, extiClearGroup1 ty imr a s = .done s1 ∧
      s1.log = s.log ++
        (if ty = EXTI_TYPE_CLASSIC then [(.PR1, toU32 a)]
         else [(.RPR1, toU32 a), (.FPR1, toU32 a)])) ∧
    (∀ s, ∃ s2, extiClearGroup2 ty imr a s = .done s2 ∧
      s2.log = s.log ++
        (if ty = EXTI_TYPE_CLASSIC then [(.PR2, toU32 a)]
         else [(.RPR2, toU32 a), (.FPR2, toU32 a)])) ∧
    (∃ ma mab mb mba mu,
      extiClearGroup1 ty imr a m = .done ma ∧
      extiClearGroup1 ty imr b ma = .done mab ∧
      extiClearGroup1 ty imr b m = .done mb ∧
      extiClearGroup1 ty imr a mb = .done mba ∧
      extiClearGroup1 ty imr (a ||| b) m = .done mu ∧
      mab.regs = mba.regs ∧ mab.regs = mu.regs ∧
      (∀ q, mu.regs q =
        if (if ty = EXTI_TYPE_CLASSIC then q = .PR1 else q = .RPR1 ∨ q = .FPR1)
        then m.regs q &&& notU32 (a ||| b) else m.regs q) ∧
      (∀ q i, i < 32 → a.testBit i = false → b.testBit i = false →
        (mab.regs q).testBit i = (m.regs q).testBit i) ∧
      (∀ q i, (if ty = EXTI_TYPE_CLASSIC then q = .PR1 else q = .RPR1 ∨ q = .FPR1) →
        (a.testBit i = true ∨ b.testBit i = true) →
        (mab.regs q).testBit i = false) ∧
      (a &&& b = 0 → ∀ q i, i < 32 → a.testBit i = true →
        (mb.regs q).testBit i = (m.regs q).testBit i) ∧
      (a &&& b = 0 → ∀ q i, i < 32 → b.testBit i = true →
        (ma.regs q).testBit i = (m.regs q).testBit i)) := by
  refine ⟨fun s => ?_, fun s => ?_, ?_⟩
  · obtain ⟨s1, h1, hl, _⟩ := extiClearGroup1_regs ty imr a s ha
    exact ⟨s1, h1, hl⟩
  · obtain ⟨s2, h2, hl, _⟩ := extiClearGroup2_regs ty imr a s ha
    exact ⟨s2, h2, hl⟩
  · obtain ⟨ma, hma, _, ra⟩ := extiClearGroup1_regs ty imr a m ha
    obtain ⟨mab, hmab, _, rab⟩ := extiClearGroup1_regs ty imr b ma hb
    obtain ⟨mb, hmb, _, rb⟩ := extiClearGroup1_regs ty imr b m hb
    obtain ⟨mba, hmba, _, rba⟩ := extiClearGroup1_regs ty imr a mb ha
    obtain ⟨mu, hmu, _, ru⟩ :=
      extiClearGroup1_regs ty imr (a ||| b) m (or_clear_of_fixed a b imr ha hb)
    have hmabu : mab.regs = mu.regs := by
      funext q
      rw [rab q, ru q, ra q]
      by_cases hP : (if ty = EXTI_TYPE_CLASSIC then q = .PR1
          else q = .RPR1 ∨ q = .FPR1)
      · simp only [if_pos hP]
        exact w1c_or _ _ _
      · simp only [if_neg hP]
    have disj : ∀ x y : Nat, x &&& y = 0 → ∀ i, x.testBit i = true →
        y.testBit i = false := by
      intro x y hxy i hx
      have hz : (x &&& y).testBit i = false := by
        rw [hxy]; exact Nat.zero_testBit i
      rw [Nat.testBit_and, hx, Bool.true_and] at hz
      exact hz
    have kept : ∀ (s s1 : Machine) (v : Nat),
        (∀ q, s1.regs q =
          if (if ty = EXTI_TYPE_CLASSIC then q = .PR1 else q = .RPR1 ∨ q = .FPR1)
          then s.regs q &&& notU32 (toU32 v) else s.regs q) →
        ∀ q i, i < 32 → v.testBit i = false →
          (s1.regs q).testBit i = (s.regs q).testBit i := by
      intro s s1 v hr q i hi hv
      rw [hr q]
      by_cases hP : (if ty = EXTI_TYPE_CLASSIC then q = .PR1
          else q = .RPR1 ∨ q = .FPR1)
      · simp only [if_pos hP]
        exact w1c_kept _ v i hi hv
      · simp only [if_neg hP]
    refine ⟨ma, mab, mb, mba, mu, hma, hmab, hmb, hmba, hmu, ?_, hmabu, ?_, ?_, ?_,
      ?_, ?_⟩
    · funext q
      rw [rab q, rba q, ra q, rb q]
      by_cases hP : (if ty = EXTI_TYPE_CLASSIC then q = .PR1
          else q = .RPR1 ∨ q = .FPR1)
      · simp only [if_pos hP]
        exact w1c_comm _ _ _
      · simp only [if_neg hP]
    · intro q
      rw [ru q, notU32_toU32]
    · intro q i hi hai hbi
      rw [kept ma mab b rab q i hi hbi, kept m ma a ra q i hi hai]
    · intro q i hP hab
      rw [hmabu, ru q, if_pos hP, Nat.testBit_and, testBit_notU32, testBit_toU32,
        Nat.testBit_or]
      rcases hab with h | h <;> simp [h]
    · intro hdis q i hi hai
      exact kept m mb b rb q i hi (disj a b hdis i hai)
    · intro hdis q i hi hbi
      rw [Nat.and_comm] at hdis
      exact kept m ma a ra q i hi (disj b a hdis i hbi)

/-- C13 in the split-pending variant with line 0 fixed, for the disjoint masks
`0x0002` and `0x0008`. -/
theorem clear_is_targeted_store_witness :
    ∃ ma mab mb mba mu,
      extiClearGroup1 EXTI_TYPE_NEWG0 1 2 lowNibble = .done ma ∧
      extiClearGroup1 EXTI_TYPE_NEWG0 1 8 ma = .done mab ∧
      extiClearGroup1 EXTI_TYPE_NEWG0 1 8 lowNibble = .done mb ∧
      extiClearGroup1 EXTI_TYPE_NEWG0 1 2 mb = .done mba ∧
      extiClearGroup1 EXTI_TYPE_NEWG0 1 (2 ||| 8) lowNibble = .done mu ∧
      mab.regs = mba.regs ∧ mab.regs = mu.regs ∧
      (∀ q, mu.regs q =
        if (if EXTI_TYPE_NEWG0 = EXTI_TYPE_CLASSIC then q = .PR1
            else q = .RPR1 ∨ q = .FPR1)
        then lowNibble.regs q &&& notU32 (2 ||| 8) else lowNibble.regs q) ∧
      (∀ q i, i < 32 → Nat.testBit 2 i = false → Nat.testBit 8 i = false →
        (mab.regs q).testBit i = (lowNibble.regs q).testBit i) ∧
      (∀ q i, (if EXTI_TYPE_NEWG0 = EXTI_TYPE_CLASSIC then q = .PR1
            else q = .RPR1 ∨ q = .FPR1) →
        (Nat.testBit 2 i = true ∨ Nat.testBit 8 i = true) →
        (mab.regs q).testBit i = false) ∧
      (2 &&& 8 = 0 → ∀ q i, i < 32 → Nat.testBit 2 i = true →
        (mb.regs q).testBit i = (lowNibble.regs q).testBit i) ∧
      (2 &&& 8 = 0 → ∀ q i, i < 32 → Nat.testBit 8 i = true →
        (ma.regs q).testBit i = (lowNibble.regs q).testBit i) :=
  (clear_is_targeted_store EXTI_TYPE_NEWG0 1 2 8 lowNibble (by decide) (by decide)).2.2

/-! ## The split-pending clear against the classic clear -/

/-- Clearing distributes over the union of the rising and falling flags. -/
theorem or_w1c (x y n : Nat) : (x &&& n) ||| (y &&& n) = (x ||| y) &&& n := by
  apply Nat.eq_of_testBit_eq
  intro i
  simp only [Nat.testBit_and, Nat.testBit_or]
  cases x.testBit i <;> cases y.testBit i <;> cases n.testBit i <;> rfl

/-- C14: with a line of the split-pending variant logically pending when its
bit is set in the rising or the falling pending register, and every pending
register write-1-to-clear, for every mask that does not intersect the fixed
lines mask and every prior state the split-pending `extiClearGroup1(mask)`
completes with logical pending set `(RPR1 | FPR1) & ~mask`, which is the
content of `PR1` after the classic `extiClearGroup1(mask)` on the register
block whose `PR1` holds `RPR1 | FPR1`; likewise for group 2. -/
theorem split_clear_simulates_classic (imr mask : Nat) (m : Machine)
    (hfix : mask &&& imr = 0) :
    (∃ ms mc, extiClearGroup1 EXTI_TYPE_NEWG0 imr mask m = .done ms ∧
      extiClearGroup1 EXTI_TYPE_CLASSIC imr mask (classicImage m) = .done mc ∧
      logicalPending1 ms = logicalPending1 m &&& notU32 mask ∧
      mc.regs .PR1 = logicalPending1 ms) ∧
    (∃ ms mc, extiClearGroup2 EXTI_TYPE_NEWG0 imr mask m = .done ms ∧
      extiClearGroup2 EXTI_TYPE_CLASSIC imr mask (classicImage m) = .done mc ∧
      logicalPending2 ms = logicalPending2 m &&& notU32 mask ∧
      mc.regs .PR2 = logicalPending2 ms) := by
  constructor
  · refine ⟨_, _, extiClearGroup1_split _ imr mask m NEWG0_ne_CLASSIC hfix,
      extiClearGroup1_classic imr mask (classicImage m) hfix, ?_, ?_⟩
    · simp [logicalPending1, notU32_toU32, or_w1c]
    · simp [logicalPending1, classicImage, notU32_toU32, or_w1c]
  · refine ⟨_, _, extiClearGroup2_split _ imr mask m NEWG0_ne_CLASSIC hfix,
      extiClearGroup2_classic imr mask (classicImage m) hfix, ?_, ?_⟩
    · simp [logicalPending2, notU32_toU32, or_w1c]
    · simp [logicalPending2, classicImage, notU32_toU32, or_w1c]

/-- C14 with no fixed line, mask `0x0001`, line 0 pending on the rising side
only. -/
theorem split_clear_simulates_classic_witness :
    ∃ ms mc, extiClearGroup1 EXTI_TYPE_NEWG0 0 1 risingOnly = .done ms ∧
      extiClearGroup1 EXTI_TYPE_CLASSIC 0 1 (classicImage risingOnly) = .done mc ∧
      logicalPending1 ms = logicalPending1 risingOnly &&& notU32 1 ∧
      mc.regs .PR1 = logicalPending1 ms :=
  (split_clear_simulates_classic 0 1 risingOnly (by decide)).1

/-! ## Group 2 and its fixed lines mask -/

/-- C15: the registry with 16 lines that declares `STM32_EXTI_HAS_GROUP2` as
`TRUE` and defines no `STM32_EXTI_IMR2_MASK` passes every check of the header
and has the group 2 operations, so the assertion inside `extiClearGroup2`
names a mask that is not defined. -/
theorem group2_without_fixed_lines_mask :
    headerErrors cfgExplicitGroup2 = [] ∧
    headerAccepts cfgExplicitGroup2 = true ∧
    hasGroup2Ops cfgExplicitGroup2 = true ∧
    cfgExplicitGroup2.imr2Mask = none := by
  decide

/-! ## Edge enable bits -/

/-- C16: `EXTI_MODE_BOTH_EDGES` is `EXTI_MODE_RISING_EDGE |
EXTI_MODE_FALLING_EDGE`, and for every mode in 0..7, with the edge field
`mode & EXTI_MODE_EDGES_MASK`: the rising test `(mode &
EXTI_MODE_RISING_EDGE) != 0` holds exactly when the edge field is rising or
both, the falling test exactly when it is falling or both, both tests fail
exactly when it is disabled, and neither test changes when the action bit is
flipped. -/
theorem edge_bits_independent :
    EXTI_MODE_BOTH_EDGES = EXTI_MODE_RISING_EDGE ||| EXTI_MODE_FALLING_EDGE ∧
    (∀ mode, mode < 8 →
      (mode &&& EXTI_MODE_RISING_EDGE ≠ 0 ↔
        (mode &&& EXTI_MODE_EDGES_MASK = EXTI_MODE_RISING_EDGE ∨
         mode &&& EXTI_MODE_EDGES_MASK = EXTI_MODE_BOTH_EDGES)) ∧
      (mode &&& EXTI_MODE_FALLING_EDGE ≠ 0 ↔
        (mode &&& EXTI_MODE_EDGES_MASK = EXTI_MODE_FALLING_EDGE ∨
         mode &&& EXTI_MODE_EDGES_MASK = EXTI_MODE_BOTH_EDGES)) ∧
      ((mode &&& EXTI_MODE_RISING_EDGE = 0 ∧ mode &&& EXTI_MODE_FALLING_EDGE = 0) ↔
        mode &&& EXTI_MODE_EDGES_MASK = EXTI_MODE_DISABLED) ∧
      (mode ^^^ EXTI_MODE_ACTION_MASK) &&& EXTI_MODE_RISING_EDGE =
        mode &&& EXTI_MODE_RISING_EDGE ∧
      (mode ^^^ EXTI_MODE_ACTION_MASK) &&& EXTI_MODE_FALLING_EDGE =
        mode &&& EXTI_MODE_FALLING_EDGE ∧
      (mode ^^^ EXTI_MODE_ACTION_MASK) &&& EXTI_MODE_EDGES_MASK =
        mode &&& EXTI_MODE_EDGES_MASK) := by
  refine ⟨by decide, fun mode h => ?_⟩
  interval_cases mode <;> decide

/-- C16 at the mode `EXTI_MODE_FALLING_EDGE | EXTI_MODE_ACTION_EVENT = 6`. -/
theorem edge_bits_independent_witness :
    (6 &&& EXTI_MODE_RISING_EDGE ≠ 0 ↔
      (6 &&& EXTI_MODE_EDGES_MASK = EXTI_MODE_RISING_EDGE ∨
       6 &&& EXTI_MODE_EDGES_MASK = EXTI_MODE_BOTH_EDGES)) ∧
    (6 &&& EXTI_MODE_FALLING_EDGE ≠ 0 ↔
      (6 &&& EXTI_MODE_EDGES_MASK = EXTI_MODE_FALLING_EDGE ∨
       6 &&& EXTI_MODE_EDGES_MASK = EXTI_MODE_BOTH_EDGES)) ∧
    ((6 &&& EXTI_MODE_RISING_EDGE = 0 ∧ 6 &&& EXTI_MODE_FALLING_EDGE = 0) ↔
      6 &&& EXTI_MODE_EDGES_MASK = EXTI_MODE_DISABLED) ∧
    (6 ^^^ EXTI_MODE_ACTION_MASK) &&& EXTI_MODE_RISING_EDGE =
      6 &&& EXTI_MODE_RISING_EDGE ∧
    (6 ^^^ EXTI_MODE_ACTION_MASK) &&& EXTI_MODE_FALLING_EDGE =
      6 &&& EXTI_MODE_FALLING_EDGE ∧
    (6 ^^^ EXTI_MODE_ACTION_MASK) &&& EXTI_MODE_EDGES_MASK =
      6 &&& EXTI_MODE_EDGES_MASK :=
  edge_bits_independent.2 6 (by decide)

end EXTI
